import Mathlib

/-!
Verification of the `sms-directions` request-to-reply pipeline (app.py).

The Python source is shallowly embedded: pure helpers become Lean
functions on `List Char` / `String`, every network or language-model call
is a field of a `World` record holding that call's outcome, Python
exceptions become an explicit `PyExn` error type threaded through
`Except`, and the chunking loop is run on explicit fuel (`none` models a
diverging loop).
-/

set_option maxRecDepth 4000

/-- The character class stripped by Python `str.strip()` for ASCII input
(space, tab, newline, carriage return, vertical tab, form feed). -/
def isPySpace (c : Char) : Bool :=
  c = ' ' || c = '\t' || c = '\n' || c = '\r' || c = '\x0b' || c = '\x0c'

/-- Left part of Python `str.strip()`. -/
def lstrip (l : List Char) : List Char := l.dropWhile isPySpace

/-- Right part of Python `str.strip()`. -/
def rstrip (l : List Char) : List Char := (l.reverse.dropWhile isPySpace).reverse

/-- Python `str.strip()` on the character list of a string. -/
def pyStrip (l : List Char) : List Char := rstrip (lstrip l)

/-- Python `str.lower()` (ASCII case mapping, the only one these inputs use). -/
def pyLower (l : List Char) : List Char := l.map Char.toLower

/-- `str.strip()` lifted to `String`. -/
def pyStripStr (s : String) : String := String.mk (pyStrip s.data)

/-- Python `str.startswith(pre)` on character lists. -/
def pyStartsWith : List Char → List Char → Bool
  | _, [] => true
  | [], _ :: _ => false
  | c :: cs, p :: ps => c = p && pyStartsWith cs ps

/-- `text.rfind("\n", 0, stop)` from `split_sms`: the largest index
`i < stop` with `l[i] = '\n'`, if any (`none` models the return value -1). -/
def rfindNewline : List Char → Nat → Option Nat
  | _, 0 => none
  | [], _ + 1 => none
  | c :: cs, n + 1 =>
    match rfindNewline cs n with
    | some i => some (i + 1)
    | none => if c = '\n' then some 0 else none

/-- The `while` loop of `split_sms`, run on explicit fuel; `none` models a
loop that has not terminated within the given fuel. -/
def splitSmsFuel : Nat → List Char → Nat → Option (List (List Char))
  | 0, _, _ => none
  | fuel + 1, text, maxLen =>
    if text.length > maxLen then
      let split_at := (rfindNewline text maxLen).getD maxLen
      match splitSmsFuel fuel (pyStrip (text.drop split_at)) maxLen with
      | some rest => some (pyStrip (text.take split_at) :: rest)
      | none => none
    else
      some [text]

/-- `split_sms(text, max_len)`: each loop iteration strictly shortens the
text, so `text.length + 1` units of fuel suffice whenever the Python loop
terminates. -/
def split_sms (text : List Char) (maxLen : Nat) : Option (List (List Char)) :=
  splitSmsFuel (text.length + 1) text maxLen

/-- A chunk has no leading and no trailing `str.strip()` whitespace. -/
def noEdgeSpace (l : List Char) : Bool :=
  (match l.head? with
   | some c => !isPySpace c
   | none => true) &&
  (match l.getLast? with
   | some c => !isPySpace c
   | none => true)

/-- Interleaves separators and chunks: `glue [w0, w1, ..., wk] [p1, ..., pk]`
is `w0 ++ p1 ++ w1 ++ ... ++ pk ++ wk` when there is one more separator
than chunks. -/
def glue : List (List Char) → List (List Char) → List Char
  | w :: ws, p :: ps => w ++ p ++ glue ws ps
  | w :: _, [] => w
  | [], _ => []

/-- Appends extra characters onto the last separator. -/
def appendLast : List (List Char) → List Char → List (List Char)
  | [], b => [b]
  | [w], b => [w ++ b]
  | w :: ws, b => w :: appendLast ws b

/-- Prepends extra characters onto the first separator. -/
def modHead (x : List Char) : List (List Char) → List (List Char)
  | [] => [x]
  | w :: ws => (x ++ w) :: ws

/-- Every character of every separator is `str.strip()` whitespace. -/
def allSpaces (ws : List (List Char)) : Prop :=
  ∀ w ∈ ws, ∀ c ∈ w, isPySpace c = true

/-- A Flask `Response`: a body and a mimetype. -/
structure Resp where
  body : List Char
  mimetype : String
deriving DecidableEq

/-- `respond_with_sms(text)`: chunk with `split_sms` at the default
`max_len = 1600` and wrap each chunk verbatim in `<Message>` tags inside a
`<Response>` element (the source performs no entity escaping). -/
def respond_with_sms (text : List Char) : Option Resp :=
  match split_sms text 1600 with
  | none => none
  | some chunks =>
    some
      { body :=
          "<Response>".data ++
            (chunks.map fun chunk => "<Message>".data ++ chunk ++ "</Message>".data).flatten ++
            "</Response>".data
        mimetype := "application/xml" }

/-- Python exceptions that can arise in the pipeline. `handle_sms` catches
only `valueError` and `keyError`; everything else escapes the handler. -/
inductive PyExn where
  | valueError (msg : String)
  | keyError (key : String)
  | typeError
  | indexError
  | timeout
deriving DecidableEq

/-- A single ASCII quote character, U+0027 (used by Python `str(KeyError)`
and by literal source texts). -/
def asciiQuote : String := String.mk [Char.ofNat 39]

/-- Python `str(e)` for the exceptions `handle_sms` catches:
`str(ValueError(m)) = m`, `str(KeyError(k))` is `k` wrapped in quotes. -/
def exnText : PyExn → String
  | .valueError m => m
  | .keyError k => asciiQuote ++ k ++ asciiQuote
  | .typeError => "TypeError"
  | .indexError => "IndexError"
  | .timeout => "Timeout"

/-- A parsed JSON value, the result type of `json.loads`. -/
inductive JVal where
  | null
  | bool (b : Bool)
  | num (q : Rat)
  | str (s : String)
  | arr (xs : List JVal)
  | obj (kvs : List (String × JVal))

/-- Python subscript `v[k]` on a `json.loads` result: a dict lookup that
raises `KeyError` on a missing key and `TypeError` on a non-dict value. -/
def jvalGet (v : JVal) (k : String) : Except PyExn JVal :=
  match v with
  | .obj kvs =>
    match kvs.lookup k with
    | some x => .ok x
    | none => .error (.keyError k)
  | _ => .error .typeError

/-- Python `str(v)` as used in f-strings; scalar cases match CPython, the
container rendering is abbreviated (no claim evaluates a container here). -/
def jvalStr : JVal → String
  | .null => "None"
  | .bool b => if b then "True" else "False"
  | .num q => toString q
  | .str s => s
  | .arr _ => "[...]"
  | .obj _ => "..."

/-- A place candidate from the Places API response, carrying the fields
`displayName.text`, `location.latitude`, `location.longitude` that
`resolve_place` reads (JSON numbers are embedded as rationals). -/
structure Place where
  name : String
  lat : Rat
  lng : Rat
deriving DecidableEq

/-- The `line` object of a transit step; the nested `vehicle.type` lookup
is flattened into `vehicle_type`. -/
structure LineInfo where
  vehicle_type : Option String
  short_name : Option String
  name : Option String

/-- The `transit_details` object of a directions step; the nested
`departure_stop.name` / `arrival_stop.name` lookups are flattened. -/
structure TransitDetails where
  line : Option LineInfo
  departure_stop : Option String
  arrival_stop : Option String

/-- One step of a directions leg. -/
structure Step where
  transit_details : Option TransitDetails
  html_instructions : String
  distance_text : String

/-- One leg of a directions route, with `duration.text` flattened. -/
structure Leg where
  duration_text : String
  steps : List Step

/-- One route of a directions response. -/
structure Route where
  legs : List Leg

/-- The body of a directions response; a missing or empty `routes` key is
modelled as the empty list (both are falsy for `data.get("routes")`). -/
structure DirectionsData where
  routes : List Route

/-- The outcomes of every remote call the pipeline makes during one
request: the chat-completion call of `extract_route` (already composed
with `json.loads`: `.ok none` is content the parser rejects), the
geocodability oracle keyed by the location text, the Places search keyed
by query and bias, and the Directions request keyed by its parameters.
`.error e` models the call raising exception `e` (e.g. a timeout). -/
structure World where
  extractCall : Except PyExn (Option JVal)
  geoCall : String → Except PyExn String
  placesCall : String → Option (Rat × Rat) → Except PyExn (List Place)
  directionsCall : String → String → String → Except PyExn DirectionsData

/-- `get_command_type(message)`: `(internal label, Google API mode)`. -/
def get_command_type (message : String) : String × String :=
  let msg := pyLower (pyStrip message.data)
  if pyStartsWith msg "help".data then ("HELP", "")
  else if pyStartsWith msg "walk".data then ("WALK", "walking")
  else if pyStartsWith msg "transit".data then ("TRANSIT", "transit")
  else if pyStartsWith msg "drive".data then ("DRIVE", "driving")
  else ("UNKNOWN", "")

/-- `extract_route`: the chat-completion call and `json.loads` form the
external boundary, summarised by `callResult`. A client exception
propagates; content rejected by `json.loads` raises
`ValueError("LLM response could not be parsed as JSON.")` (the only
exception the source's `try` converts); parsed content is returned as is,
with no check that it is an object or has any particular keys. -/
def extract_route (callResult : Except PyExn (Option JVal)) : Except PyExn JVal :=
  match callResult with
  | .error e => .error e
  | .ok none => .error (.valueError "LLM response could not be parsed as JSON.")
  | .ok (some v) => .ok v

/-- `is_location_geocodable`: any exception from the call is caught and
yields `False`; otherwise the reply is accepted exactly when its stripped,
lowercased text starts with `"y"`. -/
def is_location_geocodable (callResult : Except PyExn String) : Bool :=
  match callResult with
  | .error _ => false
  | .ok content => (pyLower (pyStrip content.data)).head? == some 'y'

/-- `resolve_place(query, lat, lng)`: take the first candidate of the
Places response; raise `ValueError` naming the query when the candidate
list is missing or empty. No validation is applied to the coordinates. -/
def resolve_place (w : World) (query : String) (bias : Option (Rat × Rat)) :
    Except PyExn Place :=
  match w.placesCall query bias with
  | .error e => .error e
  | .ok [] => .error (.valueError ("Could not resolve place: " ++ query))
  | .ok (p :: _) => .ok { name := p.name, lat := p.lat, lng := p.lng }

/-- The scan for `>` inside `re.sub(r"<.*?>", "", text)`: returns the
characters after the first `>`, failing at a newline (`.` does not match
newlines) or at the end of the text. -/
def dropTag : List Char → Option (List Char)
  | [] => none
  | c :: rest =>
    if c = '>' then some rest
    else if c = '\n' then none
    else dropTag rest

/-- `dropTag` only ever shortens its input. -/
theorem dropTag_length : ∀ l r, dropTag l = some r → r.length < l.length := by
  intro l
  induction l with
  | nil => intro r h; simp [dropTag] at h
  | cons c cs ih =>
    intro r h
    by_cases hgt : c = '>'
    · simp [dropTag, hgt] at h
      subst h
      simp
    · by_cases hnl : c = '\n'
      · simp [dropTag, hgt, hnl] at h
      · simp only [dropTag, if_neg hgt, if_neg hnl] at h
        exact Nat.lt_trans (ih r h) (by simp)

/-- `re.sub(r"<.*?>", "", text)` in `get_directions_steps`: each `<` that
is followed (newline-free) by a `>` is removed together with everything up
to that `>`; a `<` with no closing `>` in range is kept. -/
def stripTags : List Char → List Char
  | [] => []
  | '<' :: rest =>
    match h : dropTag rest with
    | some rest2 => stripTags rest2
    | none => '<' :: stripTags rest
  | c :: rest => c :: stripTags rest
termination_by l => l.length
decreasing_by
  · exact Nat.lt_trans (dropTag_length rest rest2 h) (by simp)
  · simp
  · simp

/-- `re.sub(r"([a-z])([A-Z])", r"\1. \2", text)`: inserts `". "` between a
lowercase letter and an immediately following uppercase letter, resuming
after each match as the regex engine does. -/
def camelFix : List Char → List Char
  | a :: b :: rest =>
    if a.isLower && b.isUpper then a :: '.' :: ' ' :: b :: camelFix rest
    else a :: camelFix (b :: rest)
  | l => l

/-- Python `x or y` on an optional string: `x` wins unless it is missing
or empty (the source relies on `""` being falsy). -/
def pyOrStr (a : Option String) (b : String) : String :=
  match a with
  | some s => if s = "" then b else s
  | none => b

/-- The per-step rendering of `get_directions_steps`: a transit step is
rendered from its metadata with the short-name → name → "Unknown line"
fallback; any other step is the tag-stripped, camel-case-split instruction
with its distance. -/
def formatStep (idx : Nat) (step : Step) : String :=
  match step.transit_details with
  | some transit =>
    let line := transit.line
    let vehicle := (line.bind LineInfo.vehicle_type).getD "Transit"
    let short_name := pyOrStr (line.bind LineInfo.short_name)
      (pyOrStr (line.bind LineInfo.name) "Unknown line")
    let departure := transit.departure_stop.getD ""
    let arrival := transit.arrival_stop.getD ""
    toString idx ++ ". Take " ++ vehicle ++ " " ++ short_name ++ " from " ++
      departure ++ " to " ++ arrival
  | none =>
    let text := String.mk (camelFix (stripTags step.html_instructions.data))
    toString idx ++ ". " ++ text ++ " (" ++ step.distance_text ++ ")"

/-- The instruction list of `get_directions_steps`, numbered from 1 and
joined one per line. -/
def formatSteps (steps : List Step) : String :=
  String.intercalate "\n" (steps.enum.map fun p => formatStep (p.1 + 1) p.2)

/-- The value returned by `get_directions_steps`: either the bare string
`"No route found."` or the `(duration, instructions)` tuple — the source
annotates `tuple[str, str]` but returns a plain `str` on the no-route
path. -/
inductive GDOut where
  | strRes (s : String)
  | pairRes (duration : String) (steps : String)
deriving DecidableEq

/-- `get_directions_steps(origin_name, destination_name, mode)`: resolve
both places (the destination biased on the origin), call the Directions
API, return the `"No route found."` string when `routes` is empty,
otherwise the first route's first leg as a `(duration, steps)` pair.
An empty `legs` list raises `IndexError` (uncaught downstream). -/
def get_directions_steps (w : World) (origin_name destination_name mode : String) :
    Except PyExn GDOut :=
  match resolve_place w origin_name none with
  | .error e => .error e
  | .ok origin =>
    match resolve_place w destination_name (some (origin.lat, origin.lng)) with
    | .error e => .error e
    | .ok destination =>
      let origin_str := toString origin.lat ++ "," ++ toString origin.lng
      let destination_str := toString destination.lat ++ "," ++ toString destination.lng
      match w.directionsCall origin_str destination_str mode with
      | .error e => .error e
      | .ok data =>
        match data.routes with
        | [] => .ok (.strRes "No route found.")
        | r :: _ =>
          match r.legs with
          | [] => .error .indexError
          | leg :: _ => .ok (.pairRes leg.duration_text (formatSteps leg.steps))

/-- Python tuple unpacking `duration, steps = x` where `x` is either a
2-tuple or a string: a string is unpacked character by character, raising
`ValueError` unless it has exactly two characters. -/
def unpack2 : GDOut → Except PyExn (String × String)
  | .pairRes d s => .ok (d, s)
  | .strRes s =>
    match s.data with
    | [a, b] => .ok (String.mk [a], String.mk [b])
    | l =>
      if l.length > 2 then
        .error (.valueError "too many values to unpack (expected 2)")
      else
        .error (.valueError ("not enough values to unpack (expected 2, got " ++
          toString l.length ++ ")"))

/-- The vague-location rejection text returned inside the `try` block. -/
def vagueText : String :=
  "Sorry — we can’t use vague locations like “my location” or “near me” because this service does not use GPS or real-time tracking. Please use specific addresses or location names."

/-- The reply for an unrecognized command. -/
def unknownText : String :=
  "Unrecognized command. Type " ++ asciiQuote ++ "HELP" ++ asciiQuote ++ " for instructions."

/-- What the `try` block of `handle_sms` produces when no exception is
raised: an early `return respond_with_sms(...)` for a vague location, or
the formatted itinerary message. -/
inductive TryOut where
  | early (r : Option Resp)
  | msg (m : String)

/-- The body of the `try` block in `handle_sms`, with Python's
short-circuit order preserved: `route["origin"]` is subscripted and
checked first, and `route["destination"]` is only touched when the origin
passed the geocodability filter. -/
def pipelineTry (w : World) (mode command : String) : Except PyExn TryOut :=
  match extract_route w.extractCall with
  | .error e => .error e
  | .ok route =>
    match jvalGet route "origin" with
    | .error e => .error e
    | .ok o =>
      if is_location_geocodable (w.geoCall (jvalStr o)) = false then
        .ok (.early (respond_with_sms vagueText.data))
      else
        match jvalGet route "destination" with
        | .error e => .error e
        | .ok d =>
          if is_location_geocodable (w.geoCall (jvalStr d)) = false then
            .ok (.early (respond_with_sms vagueText.data))
          else
            match get_directions_steps w (jvalStr o) (jvalStr d) mode with
            | .error e => .error e
            | .ok gd =>
              match unpack2 gd with
              | .error e => .error e
              | .ok (duration, steps) =>
                .ok (.msg ("From: " ++ jvalStr o ++ "\nTo: " ++ jvalStr d ++
                  "\nMode: " ++ command ++ "\nDuration: " ++ duration ++
                  "\n\n" ++ steps))

/-- What the `/sms` view hands back to Flask: a `Response`, the bare
`return` (Python `None`, an invalid view return), or an exception that
escaped the `except (ValueError, KeyError)` handler. -/
inductive HandlerResult where
  | reply (r : Resp)
  | noneReturned
  | uncaught (e : PyExn)
deriving DecidableEq

/-- `handle_sms()`: strip the `Body` field, classify the command; `HELP`
falls into a bare `return`; a travel command runs the pipeline, converting
a `ValueError`/`KeyError` into an `Error: ...` reply; anything else gets
the unrecognized-command reply. The outer `Option` is the chunker's fuel
(`none` never occurs for terminating runs). -/
def handle_sms (w : World) (bodyField : String) : Option HandlerResult :=
  let user_input := pyStripStr bodyField
  let cm := get_command_type user_input
  let command := cm.1
  let mode := cm.2
  if command = "HELP" then
    some .noneReturned
  else if command = "WALK" ∨ command = "TRANSIT" ∨ command = "DRIVE" then
    match pipelineTry w mode command with
    | .ok (.early r) => r.map HandlerResult.reply
    | .ok (.msg m) => (respond_with_sms m.data).map HandlerResult.reply
    | .error (.valueError m) =>
      (respond_with_sms ("Error: " ++ exnText (.valueError m)).data).map HandlerResult.reply
    | .error (.keyError k) =>
      (respond_with_sms ("Error: " ++ exnText (.keyError k)).data).map HandlerResult.reply
    | .error e => some (.uncaught e)
  else
    (respond_with_sms unknownText.data).map HandlerResult.reply

/-- `HELP` reply predicate input: a world whose oracles are never reached
on the HELP path (their values are irrelevant). -/
def wHelp : World :=
  { extractCall := .ok none
    geoCall := fun _ => .error .timeout
    placesCall := fun _ _ => .ok []
    directionsCall := fun _ _ _ => .ok { routes := [] } }

/-- A request in which extraction and the geocodability oracle succeed,
both places resolve, and the Directions API returns zero routes. -/
def wNoRoute : World :=
  { extractCall := .ok (some (.obj [("origin", .str "A"), ("destination", .str "B")]))
    geoCall := fun _ => .ok "yes"
    placesCall := fun _ _ => .ok [{ name := "P", lat := 1, lng := 2 }]
    directionsCall := fun _ _ _ => .ok { routes := [] } }

/-- A world whose place search returns a candidate with latitude 200. -/
def wBadCoord : World :=
  { extractCall := .ok none
    geoCall := fun _ => .ok "yes"
    placesCall := fun _ _ => .ok [{ name := "X", lat := 200, lng := 0 }]
    directionsCall := fun _ _ _ => .ok { routes := [] } }

/-- A world whose place search returns one in-range candidate. -/
def wGood : World :=
  { extractCall := .ok none
    geoCall := fun _ => .ok "yes"
    placesCall := fun _ _ => .ok [{ name := "New York", lat := 40, lng := -74 }]
    directionsCall := fun _ _ _ => .ok { routes := [] } }

/-- The place `resolve_place` produces from `wBadCoord`. -/
def pBad : Place := { name := "X", lat := 200, lng := 0 }

/-- The coordinate invariant claimed for every `ResolvedPlace`. -/
def inRangePlace (p : Place) : Prop :=
  -90 ≤ p.lat ∧ p.lat ≤ 90 ∧ -180 ≤ p.lng ∧ p.lng ≤ 180

/-- Recognizes the `ParseError` of `extract_route`: a `ValueError` whose
message is the parse-failure text. -/
def isParseErr : Except PyExn JVal → Bool
  | .error (.valueError m) => m == "LLM response could not be parsed as JSON."
  | _ => false

/-- A parsed JSON value that is an object carrying both route keys. -/
def hasRouteKeys : JVal → Bool
  | .obj kvs => (kvs.lookup "origin").isSome && (kvs.lookup "destination").isSome
  | _ => false

/-- Left-stripping never lengthens a list. -/
theorem lstrip_length_le (l : List Char) : (lstrip l).length ≤ l.length := by
  induction l with
  | nil => simp [lstrip]
  | cons c cs ih =>
    by_cases hc : isPySpace c
    · simp only [lstrip, List.dropWhile_cons, hc, if_true]
      exact Nat.le_trans ih (by simp)
    · simp [lstrip, List.dropWhile_cons, hc]

/-- Right-stripping never lengthens a list. -/
theorem rstrip_length_le (l : List Char) : (rstrip l).length ≤ l.length := by
  have := lstrip_length_le l.reverse
  simpa [rstrip, lstrip] using this

/-- `str.strip()` never lengthens a list. -/
theorem pyStrip_length_le (l : List Char) : (pyStrip l).length ≤ l.length :=
  Nat.le_trans (rstrip_length_le (lstrip l)) (lstrip_length_le l)

/-- Stripping a list whose head is whitespace strictly shortens it. -/
theorem pyStrip_cons_space_lt (c : Char) (t : List Char) (hc : isPySpace c = true) :
    (pyStrip (c :: t)).length < (c :: t).length := by
  have h1 : lstrip (c :: t) = lstrip t := by
    simp [lstrip, List.dropWhile_cons, hc]
  calc (pyStrip (c :: t)).length = (rstrip (lstrip t)).length := by rw [pyStrip, h1]
    _ ≤ (lstrip t).length := rstrip_length_le _
    _ ≤ t.length := lstrip_length_le t
    _ < (c :: t).length := by simp

/-- An index returned by `rfind` is below the `stop` bound. -/
theorem rfindNewline_lt : ∀ (l : List Char) (n i : Nat), rfindNewline l n = some i → i < n := by
  intro l
  induction l with
  | nil => intro n i h; cases n <;> simp [rfindNewline] at h
  | cons c cs ih =>
    intro n i h
    cases n with
    | zero => simp [rfindNewline] at h
    | succ m =>
      simp only [rfindNewline] at h
      cases hr : rfindNewline cs m with
      | some j =>
        simp only [hr, Option.some.injEq] at h
        have := ih m j hr
        omega
      | none =>
        simp only [hr] at h
        split at h
        · simp only [Option.some.injEq] at h
          omega
        · simp at h

/-- An index returned by `rfind` points at a newline. -/
theorem rfindNewline_mem : ∀ (l : List Char) (n i : Nat),
    rfindNewline l n = some i → l[i]? = some '\n' := by
  intro l
  induction l with
  | nil => intro n i h; cases n <;> simp [rfindNewline] at h
  | cons c cs ih =>
    intro n i h
    cases n with
    | zero => simp [rfindNewline] at h
    | succ m =>
      simp only [rfindNewline] at h
      cases hr : rfindNewline cs m with
      | some j =>
        simp only [hr, Option.some.injEq] at h
        subst h
        simpa using ih m j hr
      | none =>
        simp only [hr] at h
        split at h
        · rename_i hc
          simp only [Option.some.injEq] at h
          subst h
          simp [hc]
        · simp at h

/-- One iteration of the `split_sms` loop strictly shortens the remaining
text whenever `max_len` is positive: a cut at a positive index drops a
nonempty front, and a cut at index 0 only happens when the text starts
with a newline that the strip removes. -/
theorem splitShrink (text : List Char) (maxLen : Nat) (hpos : 0 < maxLen)
    (hlen : text.length > maxLen) :
    (pyStrip (text.drop ((rfindNewline text maxLen).getD maxLen))).length < text.length := by
  cases hr : rfindNewline text maxLen with
  | none =>
    simp only [hr, Option.getD_none]
    calc (pyStrip (text.drop maxLen)).length
        ≤ (text.drop maxLen).length := pyStrip_length_le _
      _ = text.length - maxLen := by simp
      _ < text.length := Nat.sub_lt (by omega) hpos
  | some i =>
    simp only [hr, Option.getD_some]
    cases i with
    | zero =>
      have hget := rfindNewline_mem text maxLen 0 hr
      cases text with
      | nil => simp at hget
      | cons c t =>
        simp only [List.getElem?_cons_zero, Option.some.injEq] at hget
        subst hget
        simpa using pyStrip_cons_space_lt '\n' t (by decide)
    | succ j =>
      calc (pyStrip (text.drop (j + 1))).length
          ≤ (text.drop (j + 1)).length := pyStrip_length_le _
        _ = text.length - (j + 1) := by simp
        _ < text.length := Nat.sub_lt (by omega) (by omega)

/-- A successful run of the chunking loop never yields an empty list:
the remainder is always appended as a final chunk. -/
theorem splitSmsFuel_ne_nil : ∀ (fuel : Nat) (text : List Char) (maxLen : Nat)
    (parts : List (List Char)), splitSmsFuel fuel text maxLen = some parts → parts ≠ [] := by
  intro fuel
  induction fuel with
  | zero => intro text maxLen parts h; simp [splitSmsFuel] at h
  | succ f ih =>
    intro text maxLen parts h
    simp only [splitSmsFuel] at h
    split at h
    · cases hrec : splitSmsFuel f (pyStrip (text.drop ((rfindNewline text maxLen).getD maxLen))) maxLen with
      | some rest =>
        simp only [hrec, Option.some.injEq] at h
        subst h
        simp
      | none => simp [hrec] at h
    · simp only [Option.some.injEq] at h
      subst h
      simp

/-- With positive `max_len`, `text.length + 1` units of fuel are enough:
the loop terminates and produces a (nonempty) chunk list. -/
theorem splitSmsFuel_terminates : ∀ (fuel : Nat) (text : List Char) (maxLen : Nat),
    0 < maxLen → text.length < fuel →
    ∃ parts, splitSmsFuel fuel text maxLen = some parts := by
  intro fuel
  induction fuel with
  | zero => intro text maxLen _ hlt; omega
  | succ f ih =>
    intro text maxLen hpos hlt
    by_cases hgt : text.length > maxLen
    · have hshrink := splitShrink text maxLen hpos hgt
      have hfuel : (pyStrip (text.drop ((rfindNewline text maxLen).getD maxLen))).length < f := by
        omega
      obtain ⟨rest, hrest⟩ :=
        ih (pyStrip (text.drop ((rfindNewline text maxLen).getD maxLen))) maxLen hpos hfuel
      refine ⟨pyStrip (text.take ((rfindNewline text maxLen).getD maxLen)) :: rest, ?_⟩
      simp only [splitSmsFuel, if_pos hgt, hrest]
    · exact ⟨[text], by simp only [splitSmsFuel, if_neg hgt]⟩

/-- Every chunk a successful run produces is at most `max_len` long: a cut
index never exceeds `max_len`, stripping only shortens, and the final
chunk is appended only once the loop guard `len(text) > max_len` fails. -/
theorem splitSmsFuel_chunk_le : ∀ (fuel : Nat) (text : List Char) (maxLen : Nat)
    (parts : List (List Char)), splitSmsFuel fuel text maxLen = some parts →
    ∀ c ∈ parts, c.length ≤ maxLen := by
  intro fuel
  induction fuel with
  | zero => intro text maxLen parts h; simp [splitSmsFuel] at h
  | succ f ih =>
    intro text maxLen parts h
    simp only [splitSmsFuel] at h
    split at h
    · rename_i hgt
      cases hrec : splitSmsFuel f (pyStrip (text.drop ((rfindNewline text maxLen).getD maxLen))) maxLen with
      | some rest =>
        simp only [hrec, Option.some.injEq] at h
        subst h
        intro c hc
        rcases List.mem_cons.mp hc with hhd | htl
        · subst hhd
          have hidx : (rfindNewline text maxLen).getD maxLen ≤ maxLen := by
            cases hr : rfindNewline text maxLen with
            | none => simp
            | some i =>
              have := rfindNewline_lt text maxLen i hr
              simp only [Option.getD_some]
              omega
          calc (pyStrip (text.take ((rfindNewline text maxLen).getD maxLen))).length
              ≤ (text.take ((rfindNewline text maxLen).getD maxLen)).length :=
                pyStrip_length_le _
            _ ≤ (rfindNewline text maxLen).getD maxLen := by
                simpa using Nat.min_le_left _ _
            _ ≤ maxLen := hidx
        · exact ih _ _ _ hrec c htl
      | none => simp [hrec] at h
    · rename_i hgt
      simp only [Option.some.injEq] at h
      subst h
      intro c hc
      simp only [List.mem_singleton] at hc
      subst hc
      omega

/-- What left-stripping removes is a whitespace front. -/
theorem lstrip_decomp (l : List Char) :
    ∃ a, (∀ c ∈ a, isPySpace c = true) ∧ l = a ++ lstrip l := by
  refine ⟨l.takeWhile isPySpace, ?_, ?_⟩
  · intro c hc
    exact List.mem_takeWhile_imp hc
  · exact (List.takeWhile_append_dropWhile isPySpace l).symm

/-- What right-stripping removes is a whitespace tail. -/
theorem rstrip_decomp (l : List Char) :
    ∃ b, (∀ c ∈ b, isPySpace c = true) ∧ l = rstrip l ++ b := by
  obtain ⟨a, ha, hdec⟩ := lstrip_decomp l.reverse
  refine ⟨a.reverse, ?_, ?_⟩
  · intro c hc
    exact ha c (List.mem_reverse.mp hc)
  · have : l.reverse.reverse = (a ++ lstrip l.reverse).reverse := by rw [← hdec]
    simpa [rstrip, lstrip, List.reverse_append] using this

/-- What `str.strip()` removes is a whitespace front and a whitespace
tail around the stripped core. -/
theorem pyStrip_decomp (l : List Char) :
    ∃ a b, (∀ c ∈ a, isPySpace c = true) ∧ (∀ c ∈ b, isPySpace c = true) ∧
      l = a ++ pyStrip l ++ b := by
  obtain ⟨a, ha, hal⟩ := lstrip_decomp l
  obtain ⟨b, hb, hbl⟩ := rstrip_decomp (lstrip l)
  refine ⟨a, b, ha, hb, ?_⟩
  calc l = a ++ lstrip l := hal
    _ = a ++ (rstrip (lstrip l) ++ b) := by rw [← hbl]
    _ = a ++ pyStrip l ++ b := by simp [pyStrip, List.append_assoc]

/-- The head surviving a `dropWhile` fails the predicate. -/
theorem head?_dropWhile_not (p : Char → Bool) :
    ∀ (l : List Char) (c : Char), (l.dropWhile p).head? = some c → p c = false := by
  intro l
  induction l with
  | nil => intro c h; simp at h
  | cons x xs ih =>
    intro c h
    by_cases hx : p x
    · rw [List.dropWhile_cons_of_pos hx] at h
      exact ih c h
    · rw [List.dropWhile_cons_of_neg hx] at h
      simp only [List.head?_cons, Option.some.injEq] at h
      subst h
      exact Bool.eq_false_iff.mpr hx

/-- A stripped list has no whitespace at either edge. -/
theorem noEdgeSpace_pyStrip (l : List Char) : noEdgeSpace (pyStrip l) = true := by
  have hlast : ∀ c, (pyStrip l).getLast? = some c → isPySpace c = false := by
    intro c h
    have : ((lstrip l).reverse.dropWhile isPySpace).head? = some c := by
      have hrev : (pyStrip l).getLast? = ((lstrip l).reverse.dropWhile isPySpace).head? := by
        simp [pyStrip, rstrip, List.getLast?_reverse]
      rwa [hrev] at h
    exact head?_dropWhile_not isPySpace _ c this
  have hhead : ∀ c, (pyStrip l).head? = some c → isPySpace c = false := by
    intro c h
    obtain ⟨b, _, hbl⟩ := rstrip_decomp (lstrip l)
    cases hps : pyStrip l with
    | nil => rw [hps] at h; simp at h
    | cons x xs =>
      rw [hps] at h
      simp only [List.head?_cons, Option.some.injEq] at h
      have hrs : rstrip (lstrip l) = x :: xs := hps
      rw [hrs] at hbl
      have hlh : (lstrip l).head? = some c := by
        rw [hbl]
        simp [h]
      exact head?_dropWhile_not isPySpace l c hlh
  cases hh : (pyStrip l).head? with
  | none =>
    have : pyStrip l = [] := List.head?_eq_none_iff.mp hh
    simp [noEdgeSpace, this]
  | some c =>
    cases hl : (pyStrip l).getLast? with
    | none =>
      have : pyStrip l = [] := by
        cases hmt : pyStrip l with
        | nil => rfl
        | cons y ys => rw [hmt] at hl; simp [List.getLast?_eq_none_iff] at hl
      rw [this] at hh
      simp at hh
    | some d =>
      simp only [noEdgeSpace, hh, hl, Bool.and_eq_true]
      exact ⟨by simp [hhead c hh], by simp [hlast d hl]⟩

/-- If the loop starts from an already-stripped text, every chunk it
produces (final remainder included) is stripped: intermediate chunks are
stripped explicitly and the recursive text is re-stripped each round. -/
theorem splitSmsFuel_noEdge_of_noEdge : ∀ (fuel : Nat) (text : List Char) (maxLen : Nat)
    (parts : List (List Char)), splitSmsFuel fuel text maxLen = some parts →
    noEdgeSpace text = true → ∀ c ∈ parts, noEdgeSpace c = true := by
  intro fuel
  induction fuel with
  | zero => intro text maxLen parts h; simp [splitSmsFuel] at h
  | succ f ih =>
    intro text maxLen parts h htext
    simp only [splitSmsFuel] at h
    split at h
    · cases hrec : splitSmsFuel f (pyStrip (text.drop ((rfindNewline text maxLen).getD maxLen))) maxLen with
      | some rest =>
        simp only [hrec, Option.some.injEq] at h
        subst h
        intro c hc
        rcases List.mem_cons.mp hc with hhd | htl
        · subst hhd
          exact noEdgeSpace_pyStrip _
        · exact ih _ _ _ hrec (noEdgeSpace_pyStrip _) c htl
      | none => simp [hrec] at h
    · simp only [Option.some.injEq] at h
      subst h
      intro c hc
      simp only [List.mem_singleton] at hc
      subst hc
      exact htext

/-- Every chunk except the final remainder is stripped, for any input. -/
theorem splitSmsFuel_noEdge_dropLast : ∀ (fuel : Nat) (text : List Char) (maxLen : Nat)
    (parts : List (List Char)), splitSmsFuel fuel text maxLen = some parts →
    ∀ c ∈ parts.dropLast, noEdgeSpace c = true := by
  intro fuel
  induction fuel with
  | zero => intro text maxLen parts h; simp [splitSmsFuel] at h
  | succ f ih =>
    intro text maxLen parts h
    simp only [splitSmsFuel] at h
    split at h
    · cases hrec : splitSmsFuel f (pyStrip (text.drop ((rfindNewline text maxLen).getD maxLen))) maxLen with
      | some rest =>
        simp only [hrec, Option.some.injEq] at h
        subst h
        intro c hc
        have hne : rest ≠ [] := splitSmsFuel_ne_nil f _ _ rest hrec
        cases hrest : rest with
        | nil => exact absurd hrest hne
        | cons r rs =>
          rw [hrest] at hc
          simp only [List.dropLast_cons₂, List.mem_cons] at hc
          rcases hc with hhd | htl
          · subst hhd
            exact noEdgeSpace_pyStrip _
          · have := ih _ _ _ hrec
            rw [hrest] at this
            exact this c (by simpa using htl)
      | none => simp [hrec] at h
    · simp only [Option.some.injEq] at h
      subst h
      intro c hc
      simp at hc

/-- Gluing with an extended last separator. -/
theorem glue_appendLast : ∀ (ps ws : List (List Char)) (b : List Char),
    ws.length = ps.length + 1 → glue ws ps ++ b = glue (appendLast ws b) ps := by
  intro ps
  induction ps with
  | nil =>
    intro ws b hlen
    cases ws with
    | nil => simp at hlen
    | cons w ws' =>
      cases ws' with
      | nil => simp [glue, appendLast]
      | cons w2 ws'' => simp at hlen
  | cons p ps' ih =>
    intro ws b hlen
    cases ws with
    | nil => simp at hlen
    | cons w ws' =>
      cases ws' with
      | nil => simp at hlen
      | cons w2 ws'' =>
        have hlen' : (w2 :: ws'').length = ps'.length + 1 := by
          simpa using hlen
        calc glue (w :: w2 :: ws'') (p :: ps') ++ b
            = w ++ (p ++ (glue (w2 :: ws'') ps' ++ b)) := by
              simp [glue, List.append_assoc]
          _ = w ++ (p ++ glue (appendLast (w2 :: ws'') b) ps') := by
              rw [ih (w2 :: ws'') b hlen']
          _ = glue (appendLast (w :: w2 :: ws'') b) (p :: ps') := by
              simp [glue, appendLast, List.append_assoc]

/-- Gluing with an extended first separator. -/
theorem glue_modHead : ∀ (x : List Char) (ws ps : List (List Char)),
    ws ≠ [] → x ++ glue ws ps = glue (modHead x ws) ps := by
  intro x ws ps hne
  cases ws with
  | nil => exact absurd rfl hne
  | cons w ws' =>
    cases ps with
    | nil => simp [glue, modHead]
    | cons p ps' => simp [glue, modHead, List.append_assoc]

/-- `appendLast` keeps the separator count of a nonempty list. -/
theorem appendLast_length : ∀ (ws : List (List Char)) (b : List Char),
    ws ≠ [] → (appendLast ws b).length = ws.length := by
  intro ws
  induction ws with
  | nil => intro b h; exact absurd rfl h
  | cons w ws' ih =>
    intro b _
    cases ws' with
    | nil => simp [appendLast]
    | cons w2 ws'' =>
      have hlen := ih b (by simp)
      simp only [List.length_cons] at hlen
      simp only [appendLast, List.length_cons]
      omega

/-- `appendLast` preserves all-whitespace separators when the appended
tail is whitespace. -/
theorem appendLast_allSpaces : ∀ (ws : List (List Char)) (b : List Char),
    allSpaces ws → (∀ c ∈ b, isPySpace c = true) → allSpaces (appendLast ws b) := by
  intro ws
  induction ws with
  | nil =>
    intro b _ hb
    intro w hw c hc
    simp only [appendLast, List.mem_singleton] at hw
    subst hw
    exact hb c hc
  | cons w ws' ih =>
    intro b hws hb
    cases ws' with
    | nil =>
      intro u hu c hc
      simp only [appendLast, List.mem_singleton] at hu
      subst hu
      rcases List.mem_append.mp hc with hcw | hcb
      · exact hws w (by simp) c hcw
      · exact hb c hcb
    | cons w2 ws'' =>
      intro u hu c hc
      simp only [appendLast, List.mem_cons] at hu
      rcases hu with hu | hu
      · subst hu
        exact hws u (by simp) c hc
      · exact ih b (fun v hv d hd => hws v (by simp [hv]) d hd) hb u hu c hc

/-- `modHead` preserves all-whitespace separators when the prepended
front is whitespace. -/
theorem modHead_allSpaces (x : List Char) (ws : List (List Char))
    (hx : ∀ c ∈ x, isPySpace c = true) (hws : allSpaces ws) :
    allSpaces (modHead x ws) := by
  cases ws with
  | nil =>
    intro w hw c hc
    simp only [modHead, List.mem_singleton] at hw
    subst hw
    exact hx c hc
  | cons w ws' =>
    intro u hu c hc
    simp only [modHead, List.mem_cons] at hu
    rcases hu with hu | hu
    · subst hu
      rcases List.mem_append.mp hc with hcx | hcw
      · exact hx c hcx
      · exact hws w (by simp) c hcw
    · exact hws u (by simp [hu]) c hc

/-- `modHead` keeps the separator count of a nonempty list. -/
theorem modHead_length (x : List Char) (ws : List (List Char)) (h : ws ≠ []) :
    (modHead x ws).length = ws.length := by
  cases ws with
  | nil => exact absurd rfl h
  | cons w ws' => simp [modHead]

/-- Reconstruction: a successful run of the chunking loop decomposes the
original text as separators interleaved with the chunks in order, where
every separator consists solely of stripped whitespace. -/
theorem splitSmsFuel_glue : ∀ (fuel : Nat) (text : List Char) (maxLen : Nat)
    (parts : List (List Char)), splitSmsFuel fuel text maxLen = some parts →
    ∃ ws, ws.length = parts.length + 1 ∧ allSpaces ws ∧ glue ws parts = text := by
  intro fuel
  induction fuel with
  | zero => intro text maxLen parts h; simp [splitSmsFuel] at h
  | succ f ih =>
    intro text maxLen parts h
    simp only [splitSmsFuel] at h
    split at h
    · set k := (rfindNewline text maxLen).getD maxLen with hk
      cases hrec : splitSmsFuel f (pyStrip (text.drop k)) maxLen with
      | some rest =>
        simp only [hrec, Option.some.injEq] at h
        subst h
        obtain ⟨ws', hlen', hsp', hglue'⟩ := ih _ _ _ hrec
        obtain ⟨a, b, ha, hb, hta⟩ := pyStrip_decomp (text.take k)
        obtain ⟨a2, b2, ha2, hb2, htd⟩ := pyStrip_decomp (text.drop k)
        have hws'ne : ws' ≠ [] := by
          intro hnil
          rw [hnil] at hlen'
          simp at hlen'
        have hws2ne : appendLast ws' b2 ≠ [] := by
          intro hnil
          have hl := appendLast_length ws' b2 hws'ne
          rw [hnil] at hl
          simp at hl
          exact hws'ne (List.length_eq_zero.mp hl.symm)
        refine ⟨a :: modHead (b ++ a2) (appendLast ws' b2), ?_, ?_, ?_⟩
        · rw [List.length_cons, modHead_length _ _ hws2ne, appendLast_length _ _ hws'ne,
            hlen', List.length_cons]
        · intro w hw c hc
          rcases List.mem_cons.mp hw with hwa | hwtl
          · subst hwa
            exact ha c hc
          · exact modHead_allSpaces (b ++ a2) (appendLast ws' b2)
              (fun d hd => by
                rcases List.mem_append.mp hd with hdb | hda2
                · exact hb d hdb
                · exact ha2 d hda2)
              (appendLast_allSpaces ws' b2 hsp' hb2) w hwtl c hc
        · have step1 : glue (a :: modHead (b ++ a2) (appendLast ws' b2)) (pyStrip (text.take k) :: rest)
              = a ++ pyStrip (text.take k) ++ glue (modHead (b ++ a2) (appendLast ws' b2)) rest := by
            simp [glue, List.append_assoc]
          have step2 : glue (modHead (b ++ a2) (appendLast ws' b2)) rest
              = (b ++ a2) ++ glue (appendLast ws' b2) rest := by
            rw [← glue_modHead _ _ _ hws2ne]
          have step3 : glue (appendLast ws' b2) rest = glue ws' rest ++ b2 := by
            rw [glue_appendLast rest ws' b2 hlen']
          rw [step1, step2, step3, hglue']
          calc a ++ pyStrip (text.take k) ++
                ((b ++ a2) ++ (pyStrip (text.drop k) ++ b2))
              = (a ++ pyStrip (text.take k) ++ b) ++
                (a2 ++ pyStrip (text.drop k) ++ b2) := by
                simp [List.append_assoc]
            _ = text.take k ++ text.drop k := by rw [← hta, ← htd]
            _ = text := List.take_append_drop k text
      | none => simp [hrec] at h
    · simp only [Option.some.injEq] at h
      subst h
      refine ⟨[[], []], by simp, ?_, by simp [glue]⟩
      intro w hw c hc
      rcases List.mem_cons.mp hw with hw1 | hw2
      · subst hw1; simp at hc
      · simp only [List.mem_singleton] at hw2
        subst hw2; simp at hc

/-- C1: the claim says every code path through `handle_sms` — the HELP
command included — produces exactly one valid reply body. The code
violates this: on `Body = "help"` the view hits a bare `return` and hands
Python `None` (no reply body at all) back to the transport layer. This
theorem evaluates the embedded `handle_sms` at that failing input. -/
theorem claim_C1_help_returns_none :
    handle_sms wHelp "help" = some HandlerResult.noneReturned := rfl

/-- C2: the claim says each chunk is entity-escaped (`&`, `<`, `>`
replaced) inside its `<Message>` element. The code wraps every chunk
verbatim — the imported `escape` helper is never called — so a reply text
containing `<` is emitted raw, as this evaluation of `respond_with_sms`
at the failing input `"a<b"` shows: the chunk `a<b` appears unescaped in
the body. -/
theorem claim_C2_no_escaping :
    respond_with_sms "a<b".data =
      some { body := "<Response><Message>a<b</Message></Response>".data,
             mimetype := "application/xml" } := rfl

/-- C3: the claim says a zero-route provider response is treated by the
pipeline as a normal, valid empty result. The fetcher does return the
`"No route found."` string, but `handle_sms` unpacks that string as if it
were the annotated `tuple[str, str]`, so the 15-character string raises
`ValueError("too many values to unpack (expected 2)")`, which the handler
converts into an error reply — an error, not a normal result. This
theorem evaluates the pipeline at such a request. -/
theorem claim_C3_no_route_becomes_error :
    handle_sms wNoRoute "walk from A to B" =
      some (HandlerResult.reply
        { body := "<Response><Message>Error: too many values to unpack (expected 2)</Message></Response>".data,
          mimetype := "application/xml" }) := rfl

/-- C5: `is_location_geocodable` returns `true` exactly when the model
call succeeded and its stripped, lowercased content starts with `y`; any
other content and any exception from the call (timeouts included) yields
`false`. -/
theorem claim_C5_geocodable_iff :
    ∀ r : Except PyExn String,
      is_location_geocodable r = true ↔
        ∃ c, r = Except.ok c ∧ (pyLower (pyStrip c.data)).head? = some 'y' := by
  intro r
  cases r with
  | error e => simp [is_location_geocodable]
  | ok c => simp [is_location_geocodable]

/-- C6: every chunk `split_sms` produces is at most `max_len` long, for
every input text and positive `max_len`. -/
theorem claim_C6_chunk_length :
    ∀ (text : List Char) (maxLen : Nat) (parts : List (List Char)), 0 < maxLen →
      split_sms text maxLen = some parts → ∀ c ∈ parts, c.length ≤ maxLen := by
  intro text maxLen parts _ h
  exact splitSmsFuel_chunk_le _ _ _ _ h

/-- Witness for C6 at `split_sms "ab\ncd" 3 = some ["ab", "cd"]`. -/
theorem claim_C6_witness : (['a', 'b'] : List Char).length ≤ 3 :=
  claim_C6_chunk_length "ab\ncd".data 3 [['a', 'b'], ['c', 'd']] (by decide) rfl
    ['a', 'b'] (by decide)

/-- C10: for every input text and positive `max_len`, the `split_sms`
loop terminates (within `length + 1` iterations) and returns a non-empty
chunk list. -/
theorem claim_C10_terminates :
    ∀ (text : List Char) (maxLen : Nat), 0 < maxLen →
      ∃ parts, split_sms text maxLen = some parts ∧ parts ≠ [] := by
  intro text maxLen hpos
  obtain ⟨parts, hp⟩ := splitSmsFuel_terminates (text.length + 1) text maxLen hpos (by omega)
  exact ⟨parts, hp, splitSmsFuel_ne_nil _ _ _ _ hp⟩

/-- Witness for C10 at `"ab\ncd"` with `max_len = 3`. -/
theorem claim_C10_witness :
    ∃ parts, split_sms "ab\ncd".data 3 = some parts ∧ parts ≠ [] :=
  claim_C10_terminates "ab\ncd".data 3 (by decide)

/-- C4 counterexample: the claim says the parse error is raised exactly
when the model output is not parseable as a JSON object with the keys
`origin` and `destination`. But on the valid-JSON output `{}` — which has
neither key — `extract_route` raises nothing and returns the empty object
unchanged, refuting the "exactly when". -/
theorem claim_C4_counterexample :
    extract_route (Except.ok (some (JVal.obj []))) = Except.ok (JVal.obj []) ∧
    isParseErr (extract_route (Except.ok (some (JVal.obj [])))) = false ∧
    hasRouteKeys (JVal.obj []) = false :=
  ⟨rfl, rfl, rfl⟩

/-- C4 (amended): when the model call returns content, `extract_route`
raises `ValueError("LLM response could not be parsed as JSON.")` exactly
when the content is not parseable as JSON at all (the keys are never
checked); parsed content is returned unchanged, so a JSON object with the
two keys comes through with exactly those values. The error propagates to
the orchestrator as a caught, user-visible error reply, not a crash. -/
theorem claim_C4_parse_error_iff :
    (∀ p : Option JVal,
      (isParseErr (extract_route (Except.ok p)) = true ↔ p = none) ∧
      (∀ v, p = some v → extract_route (Except.ok p) = Except.ok v)) ∧
    (∀ w : World, w.extractCall = Except.ok none →
      handle_sms w "walk from A to B" =
        some (HandlerResult.reply
          { body := "<Response><Message>Error: LLM response could not be parsed as JSON.</Message></Response>".data,
            mimetype := "application/xml" })) := by
  constructor
  · intro p
    constructor
    · cases p with
      | none => simp [extract_route, isParseErr]
      | some v => simp [extract_route, isParseErr]
    · intro v hv
      subst hv
      rfl
  · intro w hw
    cases w with
    | mk ec gc pc dc =>
      have hec : ec = Except.ok none := hw
      subst hec
      rfl

/-- Witness for C4 (amended) at the parse-failure outcome and at a parsed
route object. -/
theorem claim_C4_witness :
    isParseErr (extract_route (Except.ok (none : Option JVal))) = true ∧
    extract_route (Except.ok (some (JVal.obj [("origin", JVal.str "Statue of Liberty"),
        ("destination", JVal.str "Empire State Building")]))) =
      Except.ok (JVal.obj [("origin", JVal.str "Statue of Liberty"),
        ("destination", JVal.str "Empire State Building")]) ∧
    handle_sms wHelp "walk from A to B" =
      some (HandlerResult.reply
        { body := "<Response><Message>Error: LLM response could not be parsed as JSON.</Message></Response>".data,
          mimetype := "application/xml" }) :=
  ⟨(claim_C4_parse_error_iff.1 none).1.mpr rfl,
   (claim_C4_parse_error_iff.1 (some (JVal.obj [("origin", JVal.str "Statue of Liberty"),
        ("destination", JVal.str "Empire State Building")]))).2 _ rfl,
   claim_C4_parse_error_iff.2 wHelp rfl⟩

/-- C7: concatenating the chunks of `split_sms` with the whitespace the
cuts stripped, in chunk order, reconstructs the original text: the text
decomposes as whitespace separators interleaved with the chunks. -/
theorem claim_C7_reconstruction :
    ∀ (text : List Char) (maxLen : Nat) (parts : List (List Char)), 0 < maxLen →
      split_sms text maxLen = some parts →
      ∃ ws, ws.length = parts.length + 1 ∧ allSpaces ws ∧ glue ws parts = text := by
  intro text maxLen parts _ h
  exact splitSmsFuel_glue _ _ _ _ h

/-- Witness for C7 at `split_sms "ab\ncd" 3 = some ["ab", "cd"]`. -/
theorem claim_C7_witness :
    ∃ ws, ws.length = ([['a', 'b'], ['c', 'd']] : List (List Char)).length + 1 ∧
      allSpaces ws ∧ glue ws [['a', 'b'], ['c', 'd']] = "ab\ncd".data :=
  claim_C7_reconstruction "ab\ncd".data 3 [['a', 'b'], ['c', 'd']] (by decide) rfl

/-- C8 counterexample: the claim says every place `resolve_place` returns
satisfies the coordinate ranges for every provider response. The code
applies no validation: a provider response whose first candidate carries
latitude 200 is returned as-is, with a latitude outside [-90, 90]. -/
theorem claim_C8_counterexample :
    resolve_place wBadCoord "Quito" none = Except.ok pBad ∧ ¬ inRangePlace pBad := by
  constructor
  · rfl
  · intro hr
    rcases hr with ⟨_, hle, _⟩
    norm_num [pBad] at hle

/-- C8 (amended): `resolve_place` passes the provider's coordinates
through unvalidated, so the range invariant holds exactly when the
provider's candidates satisfy it: if every candidate of the response is
in range, the resolved place is in range. -/
theorem claim_C8_range_passthrough :
    ∀ (w : World) (q : String) (bias : Option (Rat × Rat)) (resp : List Place) (p : Place),
      w.placesCall q bias = Except.ok resp →
      (∀ cand ∈ resp, inRangePlace cand) →
      resolve_place w q bias = Except.ok p → inRangePlace p := by
  intro w q bias resp p hresp hall hres
  unfold resolve_place at hres
  rw [hresp] at hres
  cases resp with
  | nil => simp at hres
  | cons cand cands =>
    simp only [Except.ok.injEq] at hres
    subst hres
    simpa [inRangePlace] using hall cand (by simp)

/-- Witness for C8 (amended) at a response with one in-range candidate. -/
theorem claim_C8_witness : inRangePlace { name := "New York", lat := 40, lng := -74 } :=
  claim_C8_range_passthrough wGood "New York" none
    [{ name := "New York", lat := 40, lng := -74 }]
    { name := "New York", lat := 40, lng := -74 } rfl
    (by intro cand hc
        simp only [List.mem_singleton] at hc
        subst hc
        refine ⟨by norm_num, by norm_num, by norm_num, by norm_num⟩)
    rfl

/-- C9 counterexample: the claim says every chunk, the final remainder
included, is trimmed of leading/trailing whitespace. But when the input
already fits in one chunk the loop never runs and the text is appended
verbatim: `split_sms " a " 5` returns the untrimmed chunk `" a "`. -/
theorem claim_C9_counterexample :
    split_sms " a ".data 5 = some [" a ".data] ∧ noEdgeSpace " a ".data = false :=
  ⟨rfl, rfl⟩

/-- C9 (amended): every chunk except the final remainder is trimmed, and
when the input is longer than `max_len` (so at least one cut occurs) the
final remainder is trimmed too: only a no-cut run can return an untrimmed
chunk. -/
theorem claim_C9_trimmed_chunks :
    ∀ (text : List Char) (maxLen : Nat) (parts : List (List Char)), 0 < maxLen →
      split_sms text maxLen = some parts →
      (∀ c ∈ parts.dropLast, noEdgeSpace c = true) ∧
      (text.length > maxLen → ∀ c ∈ parts, noEdgeSpace c = true) := by
  intro text maxLen parts _ h
  constructor
  · exact splitSmsFuel_noEdge_dropLast _ _ _ _ h
  · intro hgt c hc
    unfold split_sms at h
    simp only [splitSmsFuel, if_pos hgt] at h
    cases hrec : splitSmsFuel text.length
        (pyStrip (text.drop ((rfindNewline text maxLen).getD maxLen))) maxLen with
    | some rest =>
      rw [hrec] at h
      simp only [Option.some.injEq] at h
      subst h
      rcases List.mem_cons.mp hc with hhd | htl
      · subst hhd
        exact noEdgeSpace_pyStrip _
      · exact splitSmsFuel_noEdge_of_noEdge _ _ _ _ hrec (noEdgeSpace_pyStrip _) c htl
    | none =>
      rw [hrec] at h
      simp at h

/-- Witness for C9 (amended) at `split_sms "ab\ncd" 3 = some ["ab", "cd"]`. -/
theorem claim_C9_witness : noEdgeSpace ['a', 'b'] = true :=
  (claim_C9_trimmed_chunks "ab\ncd".data 3 [['a', 'b'], ['c', 'd']] (by decide) rfl).2
    (by decide) ['a', 'b'] (by decide)
